import Mathlib

/-!
Verification of the MPAS patch-construction and patch-cache module
(`mpas_patches.py`) against its specification.

The module builds, for every cell of an MPAS unstructured mesh, a closed
matplotlib path of the cell's vertex coordinates (converted from radians to
degrees, with an antimeridian longitude unwrap), collects the paths into one
patch collection, and memoizes the collection on disk through pickle files.

Modelling conventions of the shallow embedding:

* NumPy arrays become Lean lists; the 2-D `verticesOnCell` array becomes a
  list of rows.  NumPy fancy indexing `arr[v - 1]` is modelled by `npIndex`,
  which reproduces NumPy's acceptance of negative indices in `[-n, -1]`
  (they resolve to `n + i`) and its `IndexError` (here `none`) outside
  `[-n, n - 1]`.
* The code's floating-point arithmetic is modelled over `ℚ`.  The constant
  `180.0/np.pi` of line 95 is irrational in exact arithmetic, so the
  radians→degrees factor is an explicit parameter `c` of the build; no
  property proved below depends on its value.
* A fatal error (`sys.exit`, uncaught `IndexError`) is modelled by `none`
  or by an `Except.error` value.
* The filesystem is an association list from paths to file contents; a file
  either holds a pickled patch collection or is corrupt (unpicklable).
-/

/-- A vertex of a patch: one row of `llVertexOnCell[i]`, axis order
`(lon, lat)` as produced by `np.stack((lonVertex, latVertex))` (line 99). -/
structure Point where
  lon : ℚ
  lat : ℚ
deriving DecidableEq

/-- The mesh data read on lines 49-54 of the source: dimension sizes
`nCells` and `maxEdges` and the four variables used by the builder.
`verticesOnCell` holds 1-based vertex indices; `latVertex`/`lonVertex`
are in radians. -/
structure Mesh where
  nCells : Nat
  maxEdges : Nat
  verticesOnCell : List (List Int)
  nEdgesOnCell : List Nat
  latVertex : List ℚ
  lonVertex : List ℚ
deriving DecidableEq

/-- NumPy integer indexing `arr[i]`: indices in `[0, n)` are direct, indices
in `[-n, 0)` wrap to `n + i`, anything else raises `IndexError` (modelled as
`none`).  This is the semantics of `latVertex[vertices - 1]` on lines 89-90. -/
def npIndex (arr : List ℚ) (i : Int) : Option ℚ :=
  if 0 ≤ i then
    arr[i.toNat]?
  else if 0 ≤ i + arr.length then
    arr[(i + arr.length).toNat]?
  else
    none

/-- Effectful map over a list: `some` of the pointwise results when every
element succeeds, `none` as soon as one fails (an uncaught exception aborts
the whole NumPy operation). -/
def optMap {α β : Type} (f : α → Option β) : List α → Option (List β)
  | [] => some []
  | a :: as =>
    match f a, optMap f as with
    | some b, some bs => some (b :: bs)
    | _, _ => none

/-- Lines 88-96 for one row of `verticesOnCell`: resolve each 1-based vertex
index `v` to the vertex arrays at `v - 1` and convert both coordinates from
radians to degrees by the factor `c` (the code's `180.0/np.pi`). -/
def gatherCell (c : ℚ) (mesh : Mesh) (row : List Int) : Option (List Point) :=
  optMap (fun v =>
    match npIndex mesh.lonVertex (v - 1), npIndex mesh.latVertex (v - 1) with
    | some lon, some la => some ⟨lon * c, la * c⟩
    | _, _ => none) row

/-- Lines 88-104: the `(nCells, maxEdges, 2)` array `llVertexOnCell`,
row `i` holding the degree coordinates of the vertices of cell `i`. -/
def llVertexOnCell (c : ℚ) (mesh : Mesh) : Option (List (List Point)) :=
  optMap (gatherCell c mesh) mesh.verticesOnCell

/-- Lines 108-110: per-cell longitude unwrap.  `diff` is computed for every
slot against the cell's first longitude before any modification; slots with
`diff > 180` get 360 subtracted, slots with `diff < -180` get 360 added
(strict comparisons, latitudes untouched). -/
def unwrapCell : List Point → List Point
  | [] => []
  | p0 :: rest =>
    (p0 :: rest).map (fun p =>
      let diff := p.lon - p0.lon
      if diff > 180 then { p with lon := p.lon - 360 }
      else if diff < -180 then { p with lon := p.lon + 360 }
      else p)

/-- Line 112: the rows handed to `path.Path`, the Python slice
`llVertexOnCell[i, 0:nEdgesOnCell[i]+1, :]` (slices clamp at the array
length, they never fail). -/
def cellPath (ps : List Point) (nEdges : Nat) : List Point :=
  ps.take (nEdges + 1)

/-- The loop of lines 107-117 over the rows of `llVertexOnCell`: row `i` is
unwrapped and sliced with `nEdgesOnCell[i]`; a missing `nEdgesOnCell[i]`
is an `IndexError`. -/
def closeCells : List (List Point) → List Nat → Option (List (List Point))
  | [], _ => some []
  | ps :: rest, ne :: nes =>
    match closeCells rest nes with
    | some t => some (cellPath (unwrapCell ps) ne :: t)
    | none => none
  | _ :: _, [] => none

/-- The per-cell polygons produced by the build loop, in cell order. -/
def builtPolygons (c : ℚ) (mesh : Mesh) : Option (List (List Point)) :=
  match llVertexOnCell c mesh with
  | some ll => closeCells ll mesh.nEdgesOnCell
  | none => none

/-- The collection handed to `mplcollections.PatchCollection` (line 122):
`mesh_patches = [None] * nCells` (line 85) with slot `i` assigned by loop
iteration `i` (line 115).  `none` models a Python `None` left in place. -/
abbrev PatchCollection := List (Option (List Point))

/-- Placing the built polygons into the preallocated `mesh_patches` list:
slots beyond the polygon list keep their `None`; an assignment past the end
of the list is an `IndexError`. -/
def patchSlots (nCells : Nat) (polys : List (List Point)) : Option PatchCollection :=
  if polys.length ≤ nCells then
    some (polys.map some ++ List.replicate (nCells - polys.length) none)
  else
    none

/-- Lines 85-122: the full (pure) build, from the mesh to the patch
collection; `none` is a fatal uncaught exception. -/
def get_mpas_patches_build (c : ℚ) (mesh : Mesh) : Option PatchCollection :=
  match builtPolygons c mesh with
  | some polys => patchSlots mesh.nCells polys
  | none => none

/-- Lines 116-117: the sequence of progress fractions passed to
`update_progress` by a build loop of `rows` iterations — one report per
index `i` with `i % 250 == 0`, carrying the fraction `i / nCells`. -/
def progressReports (rows nCells : Nat) : List ℚ :=
  ((List.range rows).filter (fun i => i % 250 == 0)).map
    (fun i : Nat => (i : ℚ) / (nCells : ℚ))

/-- The progress fractions emitted by a build of `mesh` whose gather step
succeeds (the loop runs over the rows of `llVertexOnCell`). -/
def buildReports (c : ℚ) (mesh : Mesh) : Option (List ℚ) :=
  match llVertexOnCell c mesh with
  | some ll => some (progressReports ll.length mesh.nCells)
  | none => none

/-- Lines 39-43: default patch filename `str(nCells) + '.' + 'patches'`. -/
def generate_mesh_patch_fname (mesh : Mesh) : String :=
  toString mesh.nCells ++ "." ++ "patches"

/-- Lines 56-59: `if pickleFile: ... else: ...` — Python truthiness, so both
`None` and the empty string fall back to the generated filename. -/
def pickle_fname (mesh : Mesh) (pickleFile : Option String) : String :=
  match pickleFile with
  | some s => if s = "" then generate_mesh_patch_fname mesh else s
  | none => generate_mesh_patch_fname mesh

/-- Contents of a file at a cache path: a successfully unpicklable patch
collection, or bytes on which `pkle.load` raises. -/
inductive FileData where
  | valid (col : PatchCollection)
  | corrupt
deriving DecidableEq

/-- The filesystem visible to the module: an association list from paths to
file contents (first binding wins). -/
abbrev FS := List (String × FileData)

/-- `os.path.isfile` (line 64). -/
def isfile (fs : FS) (p : String) : Bool :=
  (fs.lookup p).isSome

/-- `open(fname, 'wb')` followed by `pkle.dump` (lines 126-128): the path is
bound to the new contents, any previous binding is dropped. -/
def fsWrite (fs : FS) (p : String) (d : FileData) : FS :=
  (p, d) :: fs.filter (fun q => ¬ q.1 = p)

/-- The two fatal exits reachable from `get_mpas_patches`: `sys.exit(-1)` on
a corrupt pickle (line 76) and an uncaught `IndexError` during the build. -/
inductive ExitErr where
  | corruptPickle
  | indexError
deriving DecidableEq

/-- Lines 45-134: `get_mpas_patches(mesh, pickle, pickleFile, force)` acting
on filesystem `fs`.  Returns the filesystem after the call together with the
returned collection or the fatal exit. -/
def get_mpas_patches (c : ℚ) (mesh : Mesh) (pickle : Bool)
    (pickleFile : Option String) (force : Bool) (fs : FS) :
    FS × Except ExitErr PatchCollection :=
  let fname := pickle_fname mesh pickleFile
  if isfile fs fname && !force then
    match fs.lookup fname with
    | some (FileData.valid col) => (fs, Except.ok col)
    | _ => (fs, Except.error ExitErr.corruptPickle)
  else
    match get_mpas_patches_build c mesh with
    | some col =>
      if pickle then (fsWrite fs fname (FileData.valid col), Except.ok col)
      else (fs, Except.ok col)
    | none => (fs, Except.error ExitErr.indexError)

/-- Shape invariants the mesh source contract guarantees (spec §3):
`verticesOnCell` is `nCells × maxEdges` and `nEdgesOnCell` has one entry
per cell. -/
def Mesh.WF (m : Mesh) : Prop :=
  m.verticesOnCell.length = m.nCells ∧
  m.nEdgesOnCell.length = m.nCells ∧
  ∀ row ∈ m.verticesOnCell, row.length = m.maxEdges

instance (m : Mesh) : Decidable m.WF := by
  unfold Mesh.WF; infer_instance

/-- The spec's vertex-index constraint: every entry of `verticesOnCell` is a
valid 1-based reference, i.e. lies in `[1, len(vertexLat)]`. -/
def meshIndicesValid (m : Mesh) : Prop :=
  ∀ row ∈ m.verticesOnCell, ∀ v ∈ row,
    1 ≤ v ∧ v ≤ (m.latVertex.length : Int)

instance (m : Mesh) : Decidable (meshIndicesValid m) := by
  unfold meshIndicesValid; infer_instance

/-- The unwrap rule in the spec's words (§4.1 step 3), for one vertex `p`
of a cell whose first vertex is `p0`: written from the spec to be compared
with the source's `unwrapCell`. -/
def specUnwrapAdjust (p0 p : Point) : Point :=
  if p.lon - p0.lon > 180 then { p with lon := p.lon - 360 }
  else if p.lon - p0.lon < -180 then { p with lon := p.lon + 360 }
  else p

/-- A well-formed one-cell test mesh: three vertices at longitudes 0, 1, 2
radians on the equator, cell 0 using vertices 1 and 2 with vertex 3 in the
padding slot. -/
def M1 : Mesh :=
  { nCells := 1, maxEdges := 3,
    verticesOnCell := [[1, 2, 3]], nEdgesOnCell := [2],
    latVertex := [0, 0, 0], lonVertex := [0, 1, 2] }

/-- Like `M1` but with the out-of-contract vertex index 0 in a used slot. -/
def M5 : Mesh :=
  { nCells := 1, maxEdges := 3,
    verticesOnCell := [[1, 0, 3]], nEdgesOnCell := [2],
    latVertex := [0, 0, 0], lonVertex := [0, 1, 2] }

/-- Like `M1` but with the index 5, past the end of the vertex arrays. -/
def M5b : Mesh :=
  { nCells := 1, maxEdges := 3,
    verticesOnCell := [[1, 5, 3]], nEdgesOnCell := [2],
    latVertex := [0, 0, 0], lonVertex := [0, 1, 2] }

/-! ### Helper lemmas about the embedding combinators -/

theorem optMap_length {α β : Type} (f : α → Option β) :
    ∀ {l : List α} {l2 : List β}, optMap f l = some l2 → l2.length = l.length
  | [], _, h => by
    simp only [optMap, Option.some.injEq] at h
    simp [← h]
  | a :: as, l2, h => by
    simp only [optMap] at h
    cases hfa : f a with
    | none => rw [hfa] at h; exact absurd h (by simp)
    | some b =>
      rw [hfa] at h
      cases hrest : optMap f as with
      | none => rw [hrest] at h; exact absurd h (by simp)
      | some bs =>
        rw [hrest] at h
        simp only [Option.some.injEq] at h
        subst h
        simp [optMap_length f hrest]

theorem optMap_getElem? {α β : Type} (f : α → Option β) :
    ∀ {l : List α} {l2 : List β}, optMap f l = some l2 →
    ∀ {i : Nat} {a : α}, l[i]? = some a → ∃ b, f a = some b ∧ l2[i]? = some b
  | [], _, _, i, a, ha => by simp at ha
  | x :: xs, l2, h, i, a, ha => by
    simp only [optMap] at h
    cases hfa : f x with
    | none => rw [hfa] at h; exact absurd h (by simp)
    | some b =>
      rw [hfa] at h
      cases hrest : optMap f xs with
      | none => rw [hrest] at h; exact absurd h (by simp)
      | some bs =>
        rw [hrest] at h
        simp only [Option.some.injEq] at h
        subst h
        cases i with
        | zero =>
          simp only [List.getElem?_cons_zero, Option.some.injEq] at ha
          subst ha
          exact ⟨b, hfa, by simp⟩
        | succ n =>
          simp only [List.getElem?_cons_succ] at ha
          obtain ⟨b2, hb2, hget⟩ := optMap_getElem? f hrest ha
          exact ⟨b2, hb2, by simpa using hget⟩

theorem optMap_getElem?_rev {α β : Type} (f : α → Option β) :
    ∀ {l : List α} {l2 : List β}, optMap f l = some l2 →
    ∀ {i : Nat} {b : β}, l2[i]? = some b → ∃ a, l[i]? = some a ∧ f a = some b
  | [], l2, h, i, b, hb => by
    simp only [optMap, Option.some.injEq] at h
    subst h
    simp at hb
  | x :: xs, l2, h, i, b, hb => by
    simp only [optMap] at h
    cases hfa : f x with
    | none => rw [hfa] at h; exact absurd h (by simp)
    | some b0 =>
      rw [hfa] at h
      cases hrest : optMap f xs with
      | none => rw [hrest] at h; exact absurd h (by simp)
      | some bs =>
        rw [hrest] at h
        simp only [Option.some.injEq] at h
        subst h
        cases i with
        | zero =>
          simp only [List.getElem?_cons_zero, Option.some.injEq] at hb
          subst hb
          exact ⟨x, by simp, hfa⟩
        | succ n =>
          simp only [List.getElem?_cons_succ] at hb
          obtain ⟨a, ha, hfa2⟩ := optMap_getElem?_rev f hrest hb
          exact ⟨a, by simpa using ha, hfa2⟩

theorem optMap_none_of_mem {α β : Type} (f : α → Option β) {a : α} :
    ∀ {l : List α}, a ∈ l → f a = none → optMap f l = none
  | [], ha, _ => absurd ha (by simp)
  | x :: xs, ha, hfa => by
    simp only [optMap]
    rcases List.mem_cons.mp ha with h | h
    · subst h
      rw [hfa]
    · cases hfx : f x with
      | none => rfl
      | some b => rw [optMap_none_of_mem f h hfa]

theorem closeCells_eq_zip :
    ∀ (ll : List (List Point)) (nes : List Nat), ll.length = nes.length →
    closeCells ll nes =
      some ((ll.zip nes).map (fun q => cellPath (unwrapCell q.1) q.2))
  | [], [], _ => rfl
  | [], _ :: _, h => by simp at h
  | _ :: _, [], h => by simp at h
  | ps :: rest, ne :: nes, h => by
    have ih := closeCells_eq_zip rest nes (by simpa using h)
    simp [closeCells, ih]

theorem closeCells_getElem? :
    ∀ {ll : List (List Point)} {nes : List Nat} {polys : List (List Point)},
    closeCells ll nes = some polys →
    ∀ {i : Nat} {ps : List Point} {ne : Nat},
    ll[i]? = some ps → nes[i]? = some ne →
    polys[i]? = some (cellPath (unwrapCell ps) ne)
  | [], _, _, _, i, ps, ne, hps, _ => by simp at hps
  | x :: xs, [], polys, h, i, ps, ne, hps, hne => by simp [closeCells] at h
  | x :: xs, m :: ms, polys, h, i, ps, ne, hps, hne => by
    simp only [closeCells] at h
    cases hrest : closeCells xs ms with
    | none => rw [hrest] at h; exact absurd h (by simp)
    | some t =>
      rw [hrest] at h
      simp only [Option.some.injEq] at h
      subst h
      cases i with
      | zero =>
        simp only [List.getElem?_cons_zero, Option.some.injEq] at hps hne
        subst hps; subst hne
        simp
      | succ n =>
        simp only [List.getElem?_cons_succ] at hps hne
        simpa using closeCells_getElem? hrest hps hne

theorem closeCells_getElem?_rev :
    ∀ {ll : List (List Point)} {nes : List Nat} {polys : List (List Point)},
    closeCells ll nes = some polys →
    ∀ {i : Nat} {poly ps : List Point},
    polys[i]? = some poly → ll[i]? = some ps →
    ∃ ne, nes[i]? = some ne ∧ poly = cellPath (unwrapCell ps) ne
  | [], _, polys, h, i, poly, ps, hpoly, hps => by simp at hps
  | x :: xs, [], polys, h, i, poly, ps, hpoly, hps => by simp [closeCells] at h
  | x :: xs, m :: ms, polys, h, i, poly, ps, hpoly, hps => by
    simp only [closeCells] at h
    cases hrest : closeCells xs ms with
    | none => rw [hrest] at h; exact absurd h (by simp)
    | some t =>
      rw [hrest] at h
      simp only [Option.some.injEq] at h
      subst h
      cases i with
      | zero =>
        simp only [List.getElem?_cons_zero, Option.some.injEq] at hpoly hps
        subst hps
        exact ⟨m, by simp, hpoly.symm⟩
      | succ n =>
        simp only [List.getElem?_cons_succ] at hpoly hps
        obtain ⟨ne, hne, hpe⟩ := closeCells_getElem?_rev hrest hpoly hps
        exact ⟨ne, by simpa using hne, hpe⟩

theorem unwrapCell_getElem? {ps : List Point} {p0 p : Point} {j : Nat}
    (h0 : ps.head? = some p0) (hj : ps[j]? = some p) :
    (unwrapCell ps)[j]? = some (specUnwrapAdjust p0 p) := by
  cases ps with
  | nil => simp at h0
  | cons q rest =>
    simp only [List.head?_cons, Option.some.injEq] at h0
    subst h0
    simp only [unwrapCell, List.getElem?_map, hj, Option.map_some]
    rfl

theorem specUnwrapAdjust_lat (p0 p : Point) : (specUnwrapAdjust p0 p).lat = p.lat := by
  unfold specUnwrapAdjust
  split
  · rfl
  · split <;> rfl

theorem npIndex_eq_none {arr : List ℚ} {i : Int}
    (h : i < -(arr.length : Int) ∨ (arr.length : Int) ≤ i) : npIndex arr i = none := by
  unfold npIndex
  rcases h with h | h
  · rw [if_neg (by omega), if_neg (by omega)]
  · rw [if_pos (by omega)]
    exact List.getElem?_eq_none (by omega)

theorem gatherCell_none {c : ℚ} {mesh : Mesh} {row : List Int} {v : Int}
    (hv : v ∈ row) (h : npIndex mesh.lonVertex (v - 1) = none) :
    gatherCell c mesh row = none := by
  apply optMap_none_of_mem _ hv
  rw [h]

theorem gatherCell_getElem? {c : ℚ} {mesh : Mesh} {row : List Int}
    {ps : List Point} {j : Nat} {v : Int}
    (hg : gatherCell c mesh row = some ps) (hv : row[j]? = some v) :
    ∃ lon la, npIndex mesh.lonVertex (v - 1) = some lon ∧
      npIndex mesh.latVertex (v - 1) = some la ∧
      ps[j]? = some ⟨lon * c, la * c⟩ := by
  obtain ⟨b, hb, hget⟩ := optMap_getElem? _ hg hv
  cases hlon : npIndex mesh.lonVertex (v - 1) with
  | none => rw [hlon] at hb; exact absurd hb (by simp)
  | some lon =>
    cases hla : npIndex mesh.latVertex (v - 1) with
    | none => rw [hlon, hla] at hb; exact absurd hb (by simp)
    | some la =>
      rw [hlon, hla] at hb
      simp only [Option.some.injEq] at hb
      subst hb
      exact ⟨lon, la, rfl, rfl, hget⟩

theorem getElem?_of_take {α : Type} {l : List α} {n m : Nat} {x : α}
    (h : (l.take n)[m]? = some x) : l[m]? = some x := by
  have hm : m < (l.take n).length := by
    by_contra hc
    rw [List.getElem?_eq_none (Nat.le_of_not_lt hc)] at h
    cases h
  rw [List.length_take] at hm
  rw [← List.getElem?_take_of_lt (l := l) (lt_min_iff.mp hm).1]
  exact h

theorem unwrapCell_length (ps : List Point) : (unwrapCell ps).length = ps.length := by
  cases ps with
  | nil => rfl
  | cons q rest => simp [unwrapCell]

theorem specUnwrapAdjust_of_between {p0 p : Point}
    (h1 : p.lon - p0.lon ≤ 180) (h2 : -180 ≤ p.lon - p0.lon) :
    specUnwrapAdjust p0 p = p := by
  unfold specUnwrapAdjust
  rw [if_neg (not_lt.mpr h1), if_neg (not_lt.mpr h2)]

/-! ### Claims -/

/-- C2: after the radians→degrees conversion, with the cell's first vertex
longitude as reference, every vertex of the cell is adjusted exactly as the
spec's rule `specUnwrapAdjust` prescribes: 360 is subtracted when
`lon - lon0 > 180`, added when `lon - lon0 < -180` (strict comparisons),
and a vertex whose difference is exactly 180 or -180 is left unmodified. -/
theorem unwrap_pointwise (ps : List Point) (p0 p : Point) (j : Nat)
    (h0 : ps.head? = some p0) (hj : ps[j]? = some p) :
    (unwrapCell ps)[j]? = some (specUnwrapAdjust p0 p) ∧
    specUnwrapAdjust p0 ⟨p0.lon + 180, p.lat⟩ = ⟨p0.lon + 180, p.lat⟩ ∧
    specUnwrapAdjust p0 ⟨p0.lon - 180, p.lat⟩ = ⟨p0.lon - 180, p.lat⟩ := by
  refine ⟨unwrapCell_getElem? h0 hj, ?_, ?_⟩
  · exact specUnwrapAdjust_of_between
      (by show p0.lon + 180 - p0.lon ≤ 180; linarith)
      (by show (-180 : ℚ) ≤ p0.lon + 180 - p0.lon; linarith)
  · exact specUnwrapAdjust_of_between
      (by show p0.lon - 180 - p0.lon ≤ 180; linarith)
      (by show (-180 : ℚ) ≤ p0.lon - 180 - p0.lon; linarith)

/-- C2 witness: a cell of two vertices at longitudes 0 and 181 degrees; the
second vertex's difference 181 exceeds 180 and the unwrap rule applies. -/
theorem unwrap_pointwise_witness :
    (unwrapCell [⟨0, 0⟩, ⟨181, 5⟩])[1]? =
      some (specUnwrapAdjust ⟨0, 0⟩ ⟨181, 5⟩) ∧
    specUnwrapAdjust ⟨0, 0⟩ ⟨(⟨0, 0⟩ : Point).lon + 180, (⟨181, 5⟩ : Point).lat⟩ =
      ⟨(⟨0, 0⟩ : Point).lon + 180, (⟨181, 5⟩ : Point).lat⟩ ∧
    specUnwrapAdjust ⟨0, 0⟩ ⟨(⟨0, 0⟩ : Point).lon - 180, (⟨181, 5⟩ : Point).lat⟩ =
      ⟨(⟨0, 0⟩ : Point).lon - 180, (⟨181, 5⟩ : Point).lat⟩ :=
  unwrap_pointwise [⟨0, 0⟩, ⟨181, 5⟩] ⟨0, 0⟩ ⟨181, 5⟩ 1 (by decide) (by decide)

/-- C4: with `force` false, a file at the cache path whose deserialization
fails makes the call exit fatally with the corrupt-pickle error; the
filesystem is returned unchanged (no rebuild, no overwrite), and the
result is an error, never a miss. -/
theorem corrupt_cache_fatal (c : ℚ) (mesh : Mesh) (pickle : Bool)
    (pf : Option String) (force : Bool) (fs : FS)
    (hforce : force = false)
    (hcorrupt : fs.lookup (pickle_fname mesh pf) = some FileData.corrupt) :
    get_mpas_patches c mesh pickle pf force fs =
      (fs, Except.error ExitErr.corruptPickle) := by
  subst hforce
  unfold get_mpas_patches isfile
  simp [hcorrupt]

/-- C4 witness: a one-entry filesystem holding a corrupt pickle at the
requested path. -/
theorem corrupt_cache_fatal_witness :
    get_mpas_patches 1 M1 true (some "cache") false [("cache", FileData.corrupt)] =
      ([("cache", FileData.corrupt)], Except.error ExitErr.corruptPickle) :=
  corrupt_cache_fatal 1 M1 true (some "cache") false [("cache", FileData.corrupt)]
    rfl (by with_unfolding_all decide)

/-- C5 counterexample: mesh `M5` satisfies the shape invariants but holds the
vertex index 0, outside the claimed valid range `[1, len(vertexLat)]`; the
build does not fail — NumPy resolves `0 - 1 = -1` to the last vertex and a
full collection is returned. -/
theorem negative_index_accepted_cex :
    M5.WF ∧ [1, 0, 3] ∈ M5.verticesOnCell ∧ (0 : Int) ∈ ([1, 0, 3] : List Int) ∧
    ¬ meshIndicesValid M5 ∧
    builtPolygons 1 M5 = some [[⟨0, 0⟩, ⟨2, 0⟩, ⟨2, 0⟩]] ∧
    get_mpas_patches_build 1 M5 = some [some [⟨0, 0⟩, ⟨2, 0⟩, ⟨2, 0⟩]] := by
  with_unfolding_all decide

/-- C5 amended: an index `v` in `verticesOnCell` aborts the build fatally
(with no partial collection) when `v - 1` lies outside NumPy's accepted
range `[-n, n-1]` for the vertex arrays, i.e. when `v` is outside
`[1-n, n]`; indices in `[1-n, 0]` are accepted silently. -/
theorem oob_index_fatal (c : ℚ) (mesh : Mesh) (row : List Int) (v : Int)
    (hrow : row ∈ mesh.verticesOnCell) (hv : v ∈ row)
    (hoob : v - 1 < -(mesh.lonVertex.length : Int) ∨
      (mesh.lonVertex.length : Int) ≤ v - 1) :
    builtPolygons c mesh = none ∧ get_mpas_patches_build c mesh = none := by
  have hg : gatherCell c mesh row = none := gatherCell_none hv (npIndex_eq_none hoob)
  have hll : llVertexOnCell c mesh = none := optMap_none_of_mem _ hrow hg
  refine ⟨?_, ?_⟩
  · unfold builtPolygons
    rw [hll]
  · unfold get_mpas_patches_build builtPolygons
    rw [hll]

/-- C5 witness: index 5 with vertex arrays of length 3 aborts the build. -/
theorem oob_index_fatal_witness :
    builtPolygons 1 M5b = none ∧ get_mpas_patches_build 1 M5b = none :=
  oob_index_fatal 1 M5b [1, 5, 3] 5 (by decide) (by decide) (Or.inr (by decide))

/-- C6 counterexample: the complete, successful build of the one-cell mesh
`M1` emits exactly one progress report, with fraction 0; the reports do not
terminate at exactly 1.0. -/
theorem progress_never_one_cex :
    buildReports 1 M1 = some [0] ∧ ([0] : List ℚ).getLast? ≠ some 1 := by
  with_unfolding_all decide

/-- C6 amended: the reports are emitted at indices 0, 250, 500, … of the
build loop (the definition of `progressReports`); every reported fraction
lies in `[0, 1)` — never exactly 1.0 — and the fractions are strictly
increasing across the build. -/
theorem progress_bounds_mono (rows nCells : Nat)
    (h1 : rows ≤ nCells) (h2 : 0 < nCells) :
    (∀ r ∈ progressReports rows nCells, 0 ≤ r ∧ r < 1) ∧
    (progressReports rows nCells).Pairwise (fun a b => a < b) := by
  have hn : (0 : ℚ) < (nCells : ℚ) := by exact_mod_cast h2
  constructor
  · intro r hr
    unfold progressReports at hr
    simp only [List.mem_map, List.mem_filter, List.mem_range] at hr
    obtain ⟨i, ⟨hi, _⟩, rfl⟩ := hr
    have hin : (i : ℚ) < (nCells : ℚ) := by
      exact_mod_cast lt_of_lt_of_le hi h1
    exact ⟨div_nonneg (by positivity) hn.le, (div_lt_one hn).mpr hin⟩
  · unfold progressReports
    refine List.pairwise_map.mpr ?_
    refine List.Pairwise.imp ?_
      (List.Pairwise.sublist (List.filter_sublist _) (List.pairwise_lt_range rows))
    intro a b hab
    exact (div_lt_div_iff_of_pos_right hn).mpr (by exact_mod_cast hab)

/-- C6 witness: a 300-cell build reports the fractions 0 and 250/300. -/
theorem progress_bounds_mono_witness :
    (∀ r ∈ progressReports 300 300, 0 ≤ r ∧ r < 1) ∧
    (progressReports 300 300).Pairwise (fun a b => a < b) :=
  progress_bounds_mono 300 300 (Nat.le_refl 300) (by decide)

/-- C8 counterexample: the override path `""` is supplied but is not used
verbatim — Python truthiness sends the empty string to the derived
default filename. -/
theorem empty_override_not_verbatim_cex :
    pickle_fname M1 (some "") = "1.patches" ∧ "1.patches" ≠ ("" : String) := by
  with_unfolding_all decide

/-- C8 amended: with no override the key is `"{cellCount}.patches"`; a
nonempty override path is used verbatim; the empty-string override (falsy
in Python) also falls back to the derived filename. -/
theorem cache_key_characterization (mesh : Mesh) (pf : Option String) :
    pickle_fname mesh pf =
      match pf with
      | some s => if s = "" then toString mesh.nCells ++ ".patches" else s
      | none => toString mesh.nCells ++ ".patches" := by
  have hg : generate_mesh_patch_fname mesh = toString mesh.nCells ++ ".patches" := by
    unfold generate_mesh_patch_fname
    rw [String.append_assoc]
    rfl
  cases pf with
  | none => simpa [pickle_fname] using hg
  | some s =>
    by_cases hs : s = "" <;> simp [pickle_fname, hs, hg]

/-- C1 counterexample: mesh `M1` satisfies the shape invariants, the vertex
index constraint and `cellCount > 0`; cell 0 has 2 valid vertices, and its
polygon does have `2 + 1` points, but the first point `(0,0)` and the last
point `(2,0)` are not coordinate-equal — the last row is the padding slot's
vertex, not an explicit repetition of the first vertex (closure comes from
the `closed=True` flag of `path.Path`). -/
theorem ring_not_explicitly_closed_cex :
    M1.WF ∧ meshIndicesValid M1 ∧ 0 < M1.nCells ∧ M1.nEdgesOnCell = [2] ∧
    builtPolygons 1 M1 = some [[⟨0, 0⟩, ⟨1, 0⟩, ⟨2, 0⟩]] ∧
    ([⟨0, 0⟩, ⟨1, 0⟩, ⟨2, 0⟩] : List Point).length = 2 + 1 ∧
    ([⟨0, 0⟩, ⟨1, 0⟩, ⟨2, 0⟩] : List Point).head? ≠
      ([⟨0, 0⟩, ⟨1, 0⟩, ⟨2, 0⟩] : List Point).getLast? := by
  with_unfolding_all decide

/-- C1 amended: for every well-formed mesh, when `verticesPerCell[i] + 1`
does not exceed `maxVerticesPerCell`, the polygon of cell `i` has exactly
`verticesPerCell[i] + 1` points; its last point is the unwrapped coordinate
pair of slot `verticesPerCell[i]` of the cell's row — a padding slot, which
coincides with the first point only if the mesh happens to store the first
vertex there.  The ring is closed by the `closed` flag, not by an explicit
repeated first vertex. -/
theorem polygon_length_and_last_point (c : ℚ) (mesh : Mesh)
    (ll polys : List (List Point)) (i ne : Nat) (ps poly : List Point)
    (hWF : mesh.WF)
    (hll : llVertexOnCell c mesh = some ll)
    (hpolys : builtPolygons c mesh = some polys)
    (hps : ll[i]? = some ps)
    (hne : mesh.nEdgesOnCell[i]? = some ne)
    (hpoly : polys[i]? = some poly)
    (hbound : ne + 1 ≤ mesh.maxEdges) :
    poly.length = ne + 1 ∧ poly.getLast? = (unwrapCell ps)[ne]? := by
  have hcc : closeCells ll mesh.nEdgesOnCell = some polys := by
    unfold builtPolygons at hpolys
    rw [hll] at hpolys
    exact hpolys
  have hchar := closeCells_getElem? hcc hps hne
  rw [hpoly] at hchar
  have hpe : poly = cellPath (unwrapCell ps) ne := Option.some.inj hchar
  obtain ⟨row, hrow, hgather⟩ := optMap_getElem?_rev _ hll hps
  have hrowlen : row.length = mesh.maxEdges :=
    hWF.2.2 row (List.getElem?_mem hrow)
  have hpslen : ps.length = mesh.maxEdges := by
    rw [optMap_length _ hgather, hrowlen]
  have hlen : poly.length = ne + 1 := by
    rw [hpe]
    unfold cellPath
    rw [List.length_take, unwrapCell_length, hpslen]
    exact Nat.min_eq_left hbound
  refine ⟨hlen, ?_⟩
  rw [List.getLast?_eq_getElem?, hlen]
  simp only [Nat.add_sub_cancel]
  rw [hpe]
  unfold cellPath
  exact List.getElem?_take_of_lt (Nat.lt_succ_self ne)

/-- C1 witness: cell 0 of `M1` (2 valid vertices, `maxEdges = 3`). -/
theorem polygon_length_and_last_point_witness :
    ([⟨0, 0⟩, ⟨1, 0⟩, ⟨2, 0⟩] : List Point).length = 2 + 1 ∧
    ([⟨0, 0⟩, ⟨1, 0⟩, ⟨2, 0⟩] : List Point).getLast? =
      (unwrapCell [⟨0, 0⟩, ⟨1, 0⟩, ⟨2, 0⟩])[2]? :=
  polygon_length_and_last_point 1 M1
    [[⟨0, 0⟩, ⟨1, 0⟩, ⟨2, 0⟩]] [[⟨0, 0⟩, ⟨1, 0⟩, ⟨2, 0⟩]] 0 2
    [⟨0, 0⟩, ⟨1, 0⟩, ⟨2, 0⟩] [⟨0, 0⟩, ⟨1, 0⟩, ⟨2, 0⟩]
    (by decide) (by with_unfolding_all decide) (by with_unfolding_all decide)
    (by with_unfolding_all decide) (by decide) (by with_unfolding_all decide)
    (by decide)

/-- C3: with pickling enabled (the default), `get_mpas_patches` returns the
loaded collection without rebuilding when `force` is false and a valid
cache file exists; otherwise (force true, or no file at the path) it runs
the builder, writes the fresh collection at the path — replacing whatever
was there — and returns it.  (A corrupt file with `force` false is the
fatal case of C4; a failing build is the fatal case of C5.) -/
theorem cache_get_characterization (c : ℚ) (mesh : Mesh) (pf : Option String)
    (force : Bool) (fs : FS) :
    get_mpas_patches c mesh true pf force fs =
      match fs.lookup (pickle_fname mesh pf), force with
      | some (FileData.valid col), false => (fs, Except.ok col)
      | some FileData.corrupt, false => (fs, Except.error ExitErr.corruptPickle)
      | _, _ =>
        match get_mpas_patches_build c mesh with
        | some col =>
          (fsWrite fs (pickle_fname mesh pf) (FileData.valid col), Except.ok col)
        | none => (fs, Except.error ExitErr.indexError) := by
  unfold get_mpas_patches isfile
  cases hl : fs.lookup (pickle_fname mesh pf) with
  | none => cases force <;> simp [hl]
  | some d => cases d <;> cases force <;> simp [hl]

/-- C9: with `pickle=False` the call never writes: the filesystem component
of the result is the input filesystem in every case — hit, corrupt hit,
miss, forced rebuild, failed build — and on a miss or with `force` set the
freshly built collection is returned without being persisted. -/
theorem no_pickle_frame (c : ℚ) (mesh : Mesh) (pf : Option String)
    (force : Bool) (fs : FS) :
    get_mpas_patches c mesh false pf force fs =
      (fs, match fs.lookup (pickle_fname mesh pf), force with
           | some (FileData.valid col), false => Except.ok col
           | some FileData.corrupt, false => Except.error ExitErr.corruptPickle
           | _, _ =>
             match get_mpas_patches_build c mesh with
             | some col => Except.ok col
             | none => Except.error ExitErr.indexError) := by
  unfold get_mpas_patches isfile
  cases hl : fs.lookup (pickle_fname mesh pf) with
  | none => cases force <;> cases hb : get_mpas_patches_build c mesh <;> simp [hl, hb]
  | some d => cases d <;> cases force <;> cases hb : get_mpas_patches_build c mesh <;> simp [hl, hb]

/-- C7: for a well-formed mesh with `cellCount > 0` whose gather step
succeeds, the build produces polygons aligned index-by-index with the rows
of `llVertexOnCell` zipped with `nEdgesOnCell` — cell `i` yields polygon
`i` — and the final collection has exactly `cellCount` entries, each the
polygon of the corresponding cell. -/
theorem collection_ordered_aligned (c : ℚ) (mesh : Mesh) (ll : List (List Point))
    (hWF : mesh.WF) (_hpos : 0 < mesh.nCells)
    (hll : llVertexOnCell c mesh = some ll) :
    builtPolygons c mesh =
      some ((ll.zip mesh.nEdgesOnCell).map (fun q => cellPath (unwrapCell q.1) q.2)) ∧
    get_mpas_patches_build c mesh =
      some (((ll.zip mesh.nEdgesOnCell).map
        (fun q => cellPath (unwrapCell q.1) q.2)).map some) ∧
    ((ll.zip mesh.nEdgesOnCell).map
      (fun q => cellPath (unwrapCell q.1) q.2)).length = mesh.nCells := by
  have hlen1 : ll.length = mesh.nCells := by
    rw [optMap_length _ hll]
    exact hWF.1
  have hlen2 : mesh.nEdgesOnCell.length = mesh.nCells := hWF.2.1
  have hb : builtPolygons c mesh =
      some ((ll.zip mesh.nEdgesOnCell).map (fun q => cellPath (unwrapCell q.1) q.2)) := by
    unfold builtPolygons
    rw [hll]
    exact closeCells_eq_zip ll mesh.nEdgesOnCell (by rw [hlen1, hlen2])
  have hmaplen : ((ll.zip mesh.nEdgesOnCell).map
      (fun q => cellPath (unwrapCell q.1) q.2)).length = mesh.nCells := by
    rw [List.length_map, List.length_zip, hlen1, hlen2, Nat.min_self]
  refine ⟨hb, ?_, hmaplen⟩
  unfold get_mpas_patches_build
  rw [hb]
  show patchSlots mesh.nCells
      ((ll.zip mesh.nEdgesOnCell).map (fun q => cellPath (unwrapCell q.1) q.2)) =
    some (((ll.zip mesh.nEdgesOnCell).map
      (fun q => cellPath (unwrapCell q.1) q.2)).map some)
  unfold patchSlots
  rw [if_pos (Nat.le_of_eq hmaplen), hmaplen, Nat.sub_self]
  simp

/-- C7 witness: the one-cell mesh `M1`. -/
theorem collection_ordered_aligned_witness :
    builtPolygons 1 M1 =
      some ((([[⟨0, 0⟩, ⟨1, 0⟩, ⟨2, 0⟩]] : List (List Point)).zip M1.nEdgesOnCell).map
        (fun q => cellPath (unwrapCell q.1) q.2)) ∧
    get_mpas_patches_build 1 M1 =
      some (((([[⟨0, 0⟩, ⟨1, 0⟩, ⟨2, 0⟩]] : List (List Point)).zip M1.nEdgesOnCell).map
        (fun q => cellPath (unwrapCell q.1) q.2)).map some) ∧
    ((([[⟨0, 0⟩, ⟨1, 0⟩, ⟨2, 0⟩]] : List (List Point)).zip M1.nEdgesOnCell).map
      (fun q => cellPath (unwrapCell q.1) q.2)).length = M1.nCells :=
  collection_ordered_aligned 1 M1 [[⟨0, 0⟩, ⟨1, 0⟩, ⟨2, 0⟩]]
    (by decide) (by decide) (by with_unfolding_all decide)

/-- C10: every point of every output polygon carries the latitude of the
vertex its slot references, converted by the factor `c` and nothing else:
the longitude unwrap leaves latitudes untouched. -/
theorem unwrap_preserves_latitude (c : ℚ) (mesh : Mesh)
    (ll polys : List (List Point)) (i j : Nat) (row : List Int) (v : Int)
    (la : ℚ) (ps poly : List Point) (pt : Point)
    (hll : llVertexOnCell c mesh = some ll)
    (hpolys : builtPolygons c mesh = some polys)
    (hrow : mesh.verticesOnCell[i]? = some row)
    (hv : row[j]? = some v)
    (hla : npIndex mesh.latVertex (v - 1) = some la)
    (hps : ll[i]? = some ps)
    (hpoly : polys[i]? = some poly)
    (hpt : poly[j]? = some pt) :
    pt.lat = la * c := by
  have hcc : closeCells ll mesh.nEdgesOnCell = some polys := by
    unfold builtPolygons at hpolys
    rw [hll] at hpolys
    exact hpolys
  obtain ⟨ne, hne, hpe⟩ := closeCells_getElem?_rev hcc hpoly hps
  rw [hpe] at hpt
  unfold cellPath at hpt
  have hupt := getElem?_of_take hpt
  obtain ⟨row0, hrow0, hgather⟩ := optMap_getElem?_rev _ hll hps
  rw [hrow] at hrow0
  have hroweq : row = row0 := Option.some.inj hrow0
  subst hroweq
  obtain ⟨lon, la0, hlon, hla0, hpsj⟩ := gatherCell_getElem? hgather hv
  rw [hla] at hla0
  have hlaeq : la = la0 := Option.some.inj hla0
  subst hlaeq
  cases ps with
  | nil => simp at hpsj
  | cons q rest =>
    have hadj := unwrapCell_getElem? (List.head?_cons) hpsj
    rw [hupt] at hadj
    have hpt2 : pt = specUnwrapAdjust q ⟨lon * c, la * c⟩ := Option.some.inj hadj
    rw [hpt2, specUnwrapAdjust_lat]

/-- C10 witness: slot 1 of cell 0 of `M1` references vertex 2, whose
latitude is 0 radians; the produced point `(1, 0)` has latitude `0 * 1`. -/
theorem unwrap_preserves_latitude_witness :
    (⟨1, 0⟩ : Point).lat = 0 * 1 :=
  unwrap_preserves_latitude 1 M1
    [[⟨0, 0⟩, ⟨1, 0⟩, ⟨2, 0⟩]] [[⟨0, 0⟩, ⟨1, 0⟩, ⟨2, 0⟩]] 0 1 [1, 2, 3] 2 0
    [⟨0, 0⟩, ⟨1, 0⟩, ⟨2, 0⟩] [⟨0, 0⟩, ⟨1, 0⟩, ⟨2, 0⟩] ⟨1, 0⟩
    (by with_unfolding_all decide) (by with_unfolding_all decide) (by decide)
    (by decide) (by with_unfolding_all decide) (by with_unfolding_all decide)
    (by with_unfolding_all decide) (by with_unfolding_all decide)
